import Mathlib

/-!
Verification of the `Sec-WebSocket-Key` header type of `rust-websocket`
(`src/header/key.rs`): the `WebSocketKey` value type, its base64 text
parser (`FromStr::from_str`), its serializer (`WebSocketKey::serialize`)
and its integration with the HTTP header framework
(`Header::parse_header`, `HeaderFormat::fmt_header`).

Bytes are modelled as `Nat` with an explicit `< 256` bound where the Rust
code uses `u8`; strings are Lean `String`s, raw header segments are
`List Nat` byte lists.
-/

namespace RustWebSocket

/-- The standard base64 alphabet of RFC 4648 §4, the alphabet of the
`base64` crate's default (standard, padded) configuration that
`base64::decode` / `base64::encode` in `key.rs` use. -/
def b64Alphabet : List Char :=
  "ABCDEFGHIJKLMNOPQRSTUVWXYZabcdefghijklmnopqrstuvwxyz0123456789+/".data

/-- Encoding table: the character for a 6-bit group (the fallback is never
reached for indices below 64). -/
def b64Char (n : Nat) : Char := b64Alphabet.getD n 'A'

/-- Decoding table: the 6-bit value of an alphabet character, `none` for a
character outside the standard alphabet (including `=`, `-` and `_`). -/
def b64Index (c : Char) : Option Nat := b64Alphabet.findIdx? (fun d => d == c)

/-- Standard padded base64 encoding of a byte sequence (RFC 4648 §4):
three bytes become four alphabet characters; a final group of one or two
bytes is padded with `==` or `=`. Models `base64::encode`. -/
def b64Encode : List Nat → List Char
  | a :: b :: c :: rest =>
    b64Char (a / 4) :: b64Char (a % 4 * 16 + b / 16) ::
      b64Char (b % 16 * 4 + c / 64) :: b64Char (c % 64) :: b64Encode rest
  | [a, b] =>
    [b64Char (a / 4), b64Char (a % 4 * 16 + b / 16), b64Char (b % 16 * 4), '=']
  | [a] =>
    [b64Char (a / 4), b64Char (a % 4 * 16), '=', '=']
  | [] => []

/-- Standard padded base64 decoding (RFC 4648 §4): the input is consumed
in groups of four characters; the final group may end in `==` (one byte)
or `=` (two bytes), the unused trailing bits of the final symbol must be
zero, and any other shape or any character outside the alphabet fails.
Models `base64::decode` of the standard padded configuration. -/
def b64Decode : List Char → Option (List Nat)
  | [] => some []
  | c1 :: c2 :: c3 :: c4 :: rest =>
    (b64Index c1).bind fun x1 =>
    (b64Index c2).bind fun x2 =>
    if c3 = '=' then
      if c4 = '=' ∧ rest = [] ∧ x2 % 16 = 0 then
        some [x1 * 4 + x2 / 16]
      else none
    else
      (b64Index c3).bind fun x3 =>
      if c4 = '=' then
        if rest = [] ∧ x3 % 4 = 0 then
          some [x1 * 4 + x2 / 16, x2 % 16 * 16 + x3 / 4]
        else none
      else
        (b64Index c4).bind fun x4 =>
        (b64Decode rest).map fun tail =>
          (x1 * 4 + x2 / 16) :: (x2 % 16 * 16 + x3 / 4) :: (x3 % 4 * 64 + x4) :: tail
  | _ => none

/-- Membership in the standard base64 alphabet, written as the character
class `[A-Za-z0-9+/]`. -/
def isB64Char (c : Char) : Bool :=
  ('A' ≤ c && c ≤ 'Z') || ('a' ≤ c && c ≤ 'z') ||
    ('0' ≤ c && c ≤ '9') || c == '+' || c == '/'

/-- Represents a Sec-WebSocket-Key header: `pub struct WebSocketKey(pub [u8; 16])`.
The Rust payload is a fixed `[u8; 16]`; here the payload is a byte list and
theorems carry the `length = 16` and `< 256` bounds the Rust type enforces. -/
structure WebSocketKey where
  bytes : List Nat
deriving DecidableEq

/-- The `WebSocketError` variant `from_str` uses: `ProtocolError(&'static str)`. -/
inductive WebSocketError where
  | ProtocolError (reason : String)
deriving DecidableEq

/-- `FromStr for WebSocketKey` in `key.rs`: base64-decode the input; on
decode failure return `ProtocolError("Invalid Sec-WebSocket-Accept")`
(the message the source actually carries); if the decoded length is not
16 return `ProtocolError("Sec-WebSocket-Key must be 16 bytes")`; otherwise
copy the first 16 decoded bytes (`array[..16].clone_from_slice(&vec[..16])`)
into the key. -/
def from_str (key : String) : Except WebSocketError WebSocketKey :=
  match b64Decode key.data with
  | some vec =>
    if vec.length ≠ 16 then
      .error (.ProtocolError "Sec-WebSocket-Key must be 16 bytes")
    else
      .ok ⟨vec.take 16⟩
  | none => .error (.ProtocolError "Invalid Sec-WebSocket-Accept")

/-- Models the Rust slice expression `&vec[..16]`, which panics (here:
`none`) when `vec` has fewer than 16 elements. -/
def sliceTo16 (vec : List Nat) : Option (List Nat) :=
  if 16 ≤ vec.length then some (vec.take 16) else none

/-- `from_str` with the panic behaviour of `&vec[..16]` made explicit:
`none` marks the panic, `some r` a normally returned result. -/
def from_str_checked (key : String) : Option (Except WebSocketError WebSocketKey) :=
  match b64Decode key.data with
  | some vec =>
    if vec.length ≠ 16 then
      some (.error (.ProtocolError "Sec-WebSocket-Key must be 16 bytes"))
    else
      match sliceTo16 vec with
      | some arr => some (.ok ⟨arr⟩)
      | none => none
  | none => some (.error (.ProtocolError "Invalid Sec-WebSocket-Accept"))

/-- `WebSocketKey::serialize`: the base64 encoding of the 16-byte payload. -/
def serialize (k : WebSocketKey) : String := ⟨b64Encode k.bytes⟩

/-- `Header::header_name for WebSocketKey`. -/
def header_name : String := "Sec-WebSocket-Key"

/-- `HeaderFormat::fmt_header for WebSocketKey`: writes exactly
`self.serialize()` to the formatter. -/
def fmt_header (k : WebSocketKey) : String := serialize k

/-- Modelled from the spec: the HTTP header framework (the `hyper`
collaborator, not part of this repository) emits, for a header value, the
line `Name: ` followed by the formatter output and `\r\n`. -/
def headerLine (k : WebSocketKey) : String :=
  header_name ++ ": " ++ fmt_header k ++ "\r\n"

/-- Is `b` a UTF-8 continuation byte (`10xxxxxx`)? -/
def utf8Cont (b : Nat) : Bool := 128 ≤ b && b < 192

/-- Modelled from the spec: UTF-8 decoding of a raw byte segment (the
framework "interprets it as UTF-8"), as Rust's `str::from_utf8` —
rejecting overlong forms, surrogates and code points above `0x10FFFF`. -/
def utf8Decode : List Nat → Option (List Char)
  | [] => some []
  | b1 :: rest =>
    if b1 < 128 then
      (utf8Decode rest).map fun cs => Char.ofNat b1 :: cs
    else if b1 < 194 then none
    else if b1 < 224 then
      match rest with
      | b2 :: rest2 =>
        if utf8Cont b2 then
          (utf8Decode rest2).map fun cs =>
            Char.ofNat ((b1 - 192) * 64 + (b2 - 128)) :: cs
        else none
      | [] => none
    else if b1 < 240 then
      match rest with
      | b2 :: b3 :: rest3 =>
        if utf8Cont b2 ∧ utf8Cont b3 ∧ 2048 ≤ (b1 - 224) * 4096 + (b2 - 128) * 64 + (b3 - 128) ∧
            ¬(55296 ≤ (b1 - 224) * 4096 + (b2 - 128) * 64 + (b3 - 128) ∧
              (b1 - 224) * 4096 + (b2 - 128) * 64 + (b3 - 128) < 57344) then
          (utf8Decode rest3).map fun cs =>
            Char.ofNat ((b1 - 224) * 4096 + (b2 - 128) * 64 + (b3 - 128)) :: cs
        else none
      | _ => none
    else if b1 < 245 then
      match rest with
      | b2 :: b3 :: b4 :: rest4 =>
        if utf8Cont b2 ∧ utf8Cont b3 ∧ utf8Cont b4 ∧
            65536 ≤ (b1 - 240) * 262144 + (b2 - 128) * 4096 + (b3 - 128) * 64 + (b4 - 128) ∧
            (b1 - 240) * 262144 + (b2 - 128) * 4096 + (b3 - 128) * 64 + (b4 - 128) ≤ 1114111 then
          (utf8Decode rest4).map fun cs =>
            Char.ofNat ((b1 - 240) * 262144 + (b2 - 128) * 4096 + (b3 - 128) * 64 + (b4 - 128)) :: cs
        else none
      | _ => none
    else none

/-- The framework-level error kind of the header framework
(`hyper::Error::Header`). -/
inductive HyperError where
  | Header
deriving DecidableEq

/-- Modelled from the spec: `hyper::header::parsing::from_one_raw_str`
(framework code, not part of this repository). Per the spec's
header-framework contract it requires exactly one raw byte segment —
zero or multiple segments are a framework-level header error — interprets
the single segment as UTF-8 and delegates to the text parser, mapping any
parse failure to the framework's header error. -/
def from_one_raw_str (raw : List (List Nat)) : Except HyperError WebSocketKey :=
  match raw with
  | [bytes] =>
    match utf8Decode bytes with
    | some cs =>
      match from_str ⟨cs⟩ with
      | .ok k => .ok k
      | .error _ => .error .Header
    | none => .error .Header
  | _ => .error .Header

/-- `Header::parse_header for WebSocketKey`: delegates to `from_one_raw_str`. -/
def parse_header (raw : List (List Nat)) : Except HyperError WebSocketKey :=
  from_one_raw_str raw

/-! ### Base64 table lemmas -/

theorem b64Index_b64Char : ∀ n < 64, b64Index (b64Char n) = some n := by decide

theorem b64Char_ne_pad : ∀ n < 64, b64Char n ≠ '=' := by decide

theorem isB64Char_b64Char : ∀ n < 64, isB64Char (b64Char n) = true := by decide

/-! ### Encode/decode round trip -/

theorem b64Decode_b64Encode :
    ∀ (v : List Nat), (∀ b ∈ v, b < 256) → b64Decode (b64Encode v) = some v
  | a :: b :: c :: rest, hv => by
    have ha : a < 256 := hv a (by simp)
    have hb : b < 256 := hv b (by simp)
    have hc : c < 256 := hv c (by simp)
    have h1 := b64Index_b64Char (a / 4) (by omega)
    have h2 := b64Index_b64Char (a % 4 * 16 + b / 16) (by omega)
    have h3 := b64Index_b64Char (b % 16 * 4 + c / 64) (by omega)
    have h4 := b64Index_b64Char (c % 64) (by omega)
    have hne3 := b64Char_ne_pad (b % 16 * 4 + c / 64) (by omega)
    have hne4 := b64Char_ne_pad (c % 64) (by omega)
    have ih := b64Decode_b64Encode rest (fun x hx => hv x (by simp [hx]))
    simp [b64Encode, b64Decode, h1, h2, h3, h4, hne3, hne4, ih]
    omega
  | [a, b], hv => by
    have ha : a < 256 := hv a (by simp)
    have hb : b < 256 := hv b (by simp)
    have h1 := b64Index_b64Char (a / 4) (by omega)
    have h2 := b64Index_b64Char (a % 4 * 16 + b / 16) (by omega)
    have h3 := b64Index_b64Char (b % 16 * 4) (by omega)
    have hne3 := b64Char_ne_pad (b % 16 * 4) (by omega)
    simp [b64Encode, b64Decode, h1, h2, h3, hne3, Nat.mul_mod_left]
    omega
  | [a], hv => by
    have ha : a < 256 := hv a (by simp)
    have h1 := b64Index_b64Char (a / 4) (by omega)
    have h2 := b64Index_b64Char (a % 4 * 16) (by omega)
    simp [b64Encode, b64Decode, h1, h2, Nat.mul_mod_left]
    omega
  | [], _ => by simp [b64Encode, b64Decode]

/-! ### Shape of the encoder output -/

theorem b64Encode_length : ∀ v : List Nat, (b64Encode v).length = (v.length + 2) / 3 * 4
  | a :: b :: c :: rest => by
    have ih := b64Encode_length rest
    simp [b64Encode, ih]
    omega
  | [a, b] => by simp [b64Encode]
  | [a] => by simp [b64Encode]
  | [] => by simp [b64Encode]

theorem b64Encode_mod1 :
    ∀ (v : List Nat), (∀ b ∈ v, b < 256) → v.length % 3 = 1 →
      ∃ cs, b64Encode v = cs ++ ['=', '='] ∧ cs.length = v.length / 3 * 4 + 2 ∧
        ∀ c ∈ cs, isB64Char c = true
  | a :: b :: c :: rest, hv, h => by
    have ha : a < 256 := hv a (by simp)
    have hb : b < 256 := hv b (by simp)
    have hc : c < 256 := hv c (by simp)
    have hm : rest.length % 3 = 1 := by simp at h; omega
    obtain ⟨cs, hcs, hlen, hchars⟩ :=
      b64Encode_mod1 rest (fun x hx => hv x (by simp [hx])) hm
    refine ⟨b64Char (a / 4) :: b64Char (a % 4 * 16 + b / 16) ::
      b64Char (b % 16 * 4 + c / 64) :: b64Char (c % 64) :: cs, ?_, ?_, ?_⟩
    · simp [b64Encode, hcs]
    · simp [hlen]
      omega
    · intro x hx
      simp at hx
      rcases hx with rfl | rfl | rfl | rfl | hx
      · exact isB64Char_b64Char _ (by omega)
      · exact isB64Char_b64Char _ (by omega)
      · exact isB64Char_b64Char _ (by omega)
      · exact isB64Char_b64Char _ (by omega)
      · exact hchars x hx
  | [a], hv, _ => by
    have ha : a < 256 := hv a (by simp)
    refine ⟨[b64Char (a / 4), b64Char (a % 4 * 16)], by simp [b64Encode], by simp, ?_⟩
    intro x hx
    simp at hx
    rcases hx with rfl | rfl
    · exact isB64Char_b64Char _ (by omega)
    · exact isB64Char_b64Char _ (by omega)
  | [a, b], _, h => by simp at h
  | [], _, h => by simp at h

/-! ### Characters a successful decode can contain -/

theorem b64Decode_mem :
    ∀ (cs : List Char) (v : List Nat), b64Decode cs = some v →
      ∀ c ∈ cs, c = '=' ∨ (b64Index c).isSome = true
  | [], _, _ => by simp
  | c1 :: c2 :: c3 :: c4 :: rest, v, h => by
    simp only [b64Decode] at h
    cases hx1 : b64Index c1 with
    | none => rw [hx1] at h; simp at h
    | some x1 =>
    rw [hx1] at h
    cases hx2 : b64Index c2 with
    | none => rw [hx2] at h; simp at h
    | some x2 =>
    rw [hx2] at h
    simp only [Option.some_bind] at h
    split at h
    · rename_i h3
      split at h
      · rename_i hcond
        obtain ⟨h4, hrest, -⟩ := hcond
        subst h3 h4 hrest
        intro x hx
        simp at hx
        rcases hx with rfl | rfl | rfl
        · exact Or.inr (by simp [hx1])
        · exact Or.inr (by simp [hx2])
        · exact Or.inl rfl
      · simp at h
    · rename_i h3
      cases hx3 : b64Index c3 with
      | none => rw [hx3] at h; simp at h
      | some x3 =>
      rw [hx3] at h
      simp only [Option.some_bind] at h
      split at h
      · rename_i h4
        split at h
        · rename_i hcond
          obtain ⟨hrest, -⟩ := hcond
          subst h4 hrest
          intro x hx
          simp at hx
          rcases hx with rfl | rfl | rfl | rfl
          · exact Or.inr (by simp [hx1])
          · exact Or.inr (by simp [hx2])
          · exact Or.inr (by simp [hx3])
          · exact Or.inl rfl
        · simp at h
      · rename_i h4
        cases hx4 : b64Index c4 with
        | none => rw [hx4] at h; simp at h
        | some x4 =>
        rw [hx4] at h
        simp only [Option.some_bind] at h
        cases htail : b64Decode rest with
        | none => rw [htail] at h; simp at h
        | some tail =>
        have ih := b64Decode_mem rest tail htail
        intro x hx
        simp at hx
        rcases hx with rfl | rfl | rfl | rfl | hx
        · exact Or.inr (by simp [hx1])
        · exact Or.inr (by simp [hx2])
        · exact Or.inr (by simp [hx3])
        · exact Or.inr (by simp [hx4])
        · exact ih x hx
  | [c1], v, h => by simp [b64Decode] at h
  | [c1, c2], v, h => by simp [b64Decode] at h
  | [c1, c2, c3], v, h => by simp [b64Decode] at h

theorem b64Encode_chars :
    ∀ (v : List Nat), (∀ b ∈ v, b < 256) → ∀ c ∈ b64Encode v, isB64Char c = true ∨ c = '='
  | a :: b :: c :: rest, hv => by
    have ha : a < 256 := hv a (by simp)
    have hb : b < 256 := hv b (by simp)
    have hc : c < 256 := hv c (by simp)
    have ih := b64Encode_chars rest (fun x hx => hv x (by simp [hx]))
    intro x hx
    simp only [b64Encode, List.mem_cons] at hx
    rcases hx with rfl | rfl | rfl | rfl | hx
    · exact Or.inl (isB64Char_b64Char _ (by omega))
    · exact Or.inl (isB64Char_b64Char _ (by omega))
    · exact Or.inl (isB64Char_b64Char _ (by omega))
    · exact Or.inl (isB64Char_b64Char _ (by omega))
    · exact ih x hx
  | [a, b], hv => by
    have ha : a < 256 := hv a (by simp)
    have hb : b < 256 := hv b (by simp)
    intro x hx
    simp only [b64Encode, List.mem_cons, List.not_mem_nil, or_false] at hx
    rcases hx with rfl | rfl | rfl | rfl
    · exact Or.inl (isB64Char_b64Char _ (by omega))
    · exact Or.inl (isB64Char_b64Char _ (by omega))
    · exact Or.inl (isB64Char_b64Char _ (by omega))
    · exact Or.inr rfl
  | [a], hv => by
    have ha : a < 256 := hv a (by simp)
    intro x hx
    simp only [b64Encode, List.mem_cons, List.not_mem_nil, or_false] at hx
    rcases hx with rfl | rfl | rfl | rfl
    · exact Or.inl (isB64Char_b64Char _ (by omega))
    · exact Or.inl (isB64Char_b64Char _ (by omega))
    · exact Or.inr rfl
    · exact Or.inr rfl
  | [], _ => by simp [b64Encode]

theorem mem_of_findIdx_eq_some :
    ∀ (l : List Char) (c : Char) (s i : Nat),
      List.findIdx? (fun d => d == c) l s = some i → c ∈ l
  | [], _, _, _, h => by simp [List.findIdx?] at h
  | a :: l, c, s, i, h => by
    simp only [List.findIdx?_cons] at h
    by_cases hac : (a == c) = true
    · have : a = c := by simpa using hac
      simp [this]
    · rw [if_neg (by simpa using hac)] at h
      exact List.mem_cons_of_mem _ (mem_of_findIdx_eq_some l c (s + 1) i h)

theorem alphabet_isB64Char : ∀ c ∈ b64Alphabet, isB64Char c = true := by decide

/-- An alphabet character according to the decoding table is one according
to the character class `[A-Za-z0-9+/]`. -/
theorem isB64Char_of_b64Index_isSome (c : Char) (h : (b64Index c).isSome = true) :
    isB64Char c = true := by
  cases hidx : b64Index c with
  | none => rw [hidx] at h; simp at h
  | some i => exact alphabet_isB64Char c (mem_of_findIdx_eq_some _ c 0 i hidx)

/-! ### Claims -/

/-- C1: for every 16-byte value `v`, parsing (via `from_str`) the string
produced by `serialize` on `WebSocketKey(v)` succeeds and returns a key
whose 16-byte payload equals `v`. -/
theorem C1_serialize_from_str_roundtrip (v : List Nat)
    (hlen : v.length = 16) (hv : ∀ b ∈ v, b < 256) :
    from_str (serialize ⟨v⟩) = .ok ⟨v⟩ := by
  have hdec : b64Decode (serialize ⟨v⟩).data = some v := b64Decode_b64Encode v hv
  have htake : v.take 16 = v := List.take_of_length_le (by omega)
  simp [from_str, hdec, hlen, htake]

theorem C1_serialize_from_str_roundtrip_witness :
    (List.replicate 16 65).length = 16 ∧ (∀ b ∈ List.replicate 16 65, b < 256) ∧
      from_str (serialize ⟨List.replicate 16 65⟩) = .ok ⟨List.replicate 16 65⟩ :=
  ⟨by decide, by decide,
    C1_serialize_from_str_roundtrip (List.replicate 16 65) (by decide) (by decide)⟩

/-- C2: for every input string whose standard-padded base64 decoding
succeeds but yields a byte count different from 16 (including the empty
string, which decodes to 0 bytes), `from_str` fails with a protocol error
whose reason is exactly "Sec-WebSocket-Key must be 16 bytes". -/
theorem C2_length_gate (s : String) (v : List Nat)
    (hdec : b64Decode s.data = some v) (hlen : v.length ≠ 16) :
    from_str s = .error (.ProtocolError "Sec-WebSocket-Key must be 16 bytes") := by
  simp [from_str, hdec, hlen]

theorem C2_length_gate_witness :
    b64Decode "".data = some [] ∧ ([] : List Nat).length ≠ 16 ∧
      from_str "" = .error (.ProtocolError "Sec-WebSocket-Key must be 16 bytes") :=
  ⟨by decide, by decide, C2_length_gate "" [] (by decide) (by decide)⟩

/-- C3: the claim states that on base64-decode failure `from_str` returns
a protocol error with message "Invalid Sec-WebSocket-Key". The code in
`key.rs` actually returns `ProtocolError("Invalid Sec-WebSocket-Accept")`
— the copy-paste defect the spec's design notes identify. This theorem
records the code's actual behaviour at a concrete non-base64 input. -/
theorem C3_decode_failure_actual_message :
    from_str "!!!not base64!!!" = .error (.ProtocolError "Invalid Sec-WebSocket-Accept") := by
  rfl

/-- C4: for every input string whose standard-padded base64 decoding
yields exactly 16 bytes, `from_str` succeeds and the returned key's
payload equals those 16 decoded bytes. -/
theorem C4_success_on_16_bytes (s : String) (v : List Nat)
    (hdec : b64Decode s.data = some v) (hlen : v.length = 16) :
    from_str s = .ok ⟨v⟩ := by
  have htake : v.take 16 = v := List.take_of_length_le (by omega)
  simp [from_str, hdec, hlen, htake]

theorem C4_success_on_16_bytes_witness :
    b64Decode "YSByZWFsbCBnb29kIGtleQ==".data =
        some [97, 32, 114, 101, 97, 108, 108, 32, 103, 111, 111, 100, 32, 107, 101, 121] ∧
      ([97, 32, 114, 101, 97, 108, 108, 32, 103, 111, 111, 100, 32, 107, 101, 121] : List Nat).length = 16 ∧
      from_str "YSByZWFsbCBnb29kIGtleQ==" =
        .ok ⟨[97, 32, 114, 101, 97, 108, 108, 32, 103, 111, 111, 100, 32, 107, 101, 121]⟩ :=
  ⟨by decide, by decide,
    C4_success_on_16_bytes "YSByZWFsbCBnb29kIGtleQ==" _ (by decide) (by decide)⟩

/-- C5: for every `WebSocketKey` `k` (16 bytes, each below 256),
`serialize k` is a 24-character ASCII string whose first 22 characters
lie in the standard base64 alphabet `[A-Za-z0-9+/]` and whose last two
characters are `==`. -/
theorem C5_canonical_form (k : WebSocketKey)
    (hlen : k.bytes.length = 16) (hv : ∀ b ∈ k.bytes, b < 256) :
    (serialize k).length = 24 ∧
      (∀ c ∈ (serialize k).data.take 22, isB64Char c = true) ∧
      (serialize k).data.drop 22 = ['=', '='] := by
  obtain ⟨cs, hcs, hcslen, hchars⟩ := b64Encode_mod1 k.bytes hv (by omega)
  have hcs22 : cs.length = 22 := by omega
  have hdata : (serialize k).data = cs ++ ['=', '='] := hcs
  refine ⟨?_, ?_, ?_⟩
  · show (serialize k).data.length = 24
    rw [hdata]
    simp [hcs22]
  · intro c hc
    rw [hdata, ← hcs22, List.take_left] at hc
    exact hchars c hc
  · rw [hdata, ← hcs22, List.drop_left]

theorem C5_canonical_form_witness :
    (WebSocketKey.mk (List.replicate 16 65)).bytes.length = 16 ∧
      (∀ b ∈ (WebSocketKey.mk (List.replicate 16 65)).bytes, b < 256) ∧
      ((serialize ⟨List.replicate 16 65⟩).length = 24 ∧
        (∀ c ∈ (serialize ⟨List.replicate 16 65⟩).data.take 22, isB64Char c = true) ∧
        (serialize ⟨List.replicate 16 65⟩).data.drop 22 = ['=', '=']) :=
  ⟨by decide, by decide, C5_canonical_form ⟨List.replicate 16 65⟩ (by decide) (by decide)⟩

/-- C6: the registered header name is exactly "Sec-WebSocket-Key", the
header formatter writes exactly `serialize k`, so a serialized header
collection containing key `k` contains exactly the line
`Sec-WebSocket-Key: <serialize k>\r\n`; in particular the payload
`[0x41; 16]` yields `Sec-WebSocket-Key: QUFBQUFBQUFBQUFBQUFBQQ==\r\n`. -/
theorem C6_header_emission :
    header_name = "Sec-WebSocket-Key" ∧
      (∀ k, fmt_header k = serialize k) ∧
      (∀ k, headerLine k = "Sec-WebSocket-Key: " ++ serialize k ++ "\r\n") ∧
      headerLine ⟨List.replicate 16 65⟩ =
        "Sec-WebSocket-Key: QUFBQUFBQUFBQUFBQUFBQQ==\r\n" :=
  ⟨rfl, fun _ => rfl, fun _ => rfl, rfl⟩

/-- C7: `parse_header` requires exactly one raw byte segment: given zero
segments or two or more segments it returns the framework-level header
error, and given exactly one segment it interprets it as UTF-8 and
delegates to the text parser `from_str`. -/
theorem C7_exactly_one_segment :
    parse_header [] = .error .Header ∧
      (∀ s1 s2 rest, parse_header (s1 :: s2 :: rest) = .error .Header) ∧
      (∀ bs, parse_header [bs] =
        match utf8Decode bs with
        | some cs =>
          match from_str ⟨cs⟩ with
          | .ok k => .ok k
          | .error _ => .error .Header
        | none => .error .Header) :=
  ⟨rfl, fun _ _ _ => rfl, fun _ => rfl⟩

/-- C8: for every input string `from_str` is total and never panics: the
panic-instrumented model (in which the slice `&vec[..16]` is `none` when
out of bounds) always returns `some` of the value `from_str` returns —
the copy of the decoded bytes is only reached when the decoded length is
exactly 16, so no out-of-bounds access occurs. -/
theorem C8_no_panic (s : String) : from_str_checked s = some (from_str s) := by
  unfold from_str_checked from_str
  cases hdec : b64Decode s.data with
  | none => rfl
  | some vec =>
    by_cases hlen : vec.length = 16
    · simp [hlen, sliceTo16]
    · simp [hlen]

/-- C9: only the standard base64 alphabet is used. For every input string
containing a character outside the class `[A-Za-z0-9+/]` that is not a
`=` padding character (in particular the URL-safe characters `-` and
`_`), `from_str` fails; and for every key `k`, `serialize k` never
contains `-` or `_`. -/
theorem C9_standard_alphabet_only :
    (∀ (s : String) (c : Char), c ∈ s.data → isB64Char c = false → c ≠ '=' →
      ∃ e, from_str s = .error e) ∧
    (∀ (k : WebSocketKey), (∀ b ∈ k.bytes, b < 256) →
      ∀ c ∈ (serialize k).data, c ≠ '-' ∧ c ≠ '_') := by
  constructor
  · intro s c hmem hclass hne
    cases hdec : b64Decode s.data with
    | none =>
      exact ⟨.ProtocolError "Invalid Sec-WebSocket-Accept", by simp [from_str, hdec]⟩
    | some v =>
      rcases b64Decode_mem s.data v hdec c hmem with h | h
      · exact absurd h hne
      · rw [isB64Char_of_b64Index_isSome c h] at hclass
        simp at hclass
  · intro k hv c hc
    rcases b64Encode_chars k.bytes hv c hc with h | h
    · constructor
      · rintro rfl
        simp [isB64Char] at h
      · rintro rfl
        simp [isB64Char] at h
    · subst h
      exact ⟨by decide, by decide⟩

theorem C9_standard_alphabet_only_witness :
    (('-' ∈ String.data "----") ∧ isB64Char '-' = false ∧ '-' ≠ '=' ∧
      ∃ e, from_str "----" = .error e) ∧
    ((∀ b ∈ (WebSocketKey.mk (List.replicate 16 65)).bytes, b < 256) ∧
      ∀ c ∈ (serialize ⟨List.replicate 16 65⟩).data, c ≠ '-' ∧ c ≠ '_') :=
  ⟨⟨by decide, by decide, by decide,
      C9_standard_alphabet_only.1 "----" '-' (by decide) (by decide) (by decide)⟩,
    ⟨by decide, C9_standard_alphabet_only.2 ⟨List.replicate 16 65⟩ (by decide)⟩⟩

/-- C10: for every byte sequence that is valid UTF-8, `parse_header`
applied to the single-segment list returns a key exactly when `from_str`
applied to the decoded string returns that same key, and fails exactly
when `from_str` fails: the raw-header path and the text-parsing path
agree. -/
theorem C10_raw_and_text_paths_agree (bs : List Nat) (cs : List Char)
    (h : utf8Decode bs = some cs) :
    (∀ k, parse_header [bs] = .ok k ↔ from_str ⟨cs⟩ = .ok k) ∧
      ((∃ e, parse_header [bs] = .error e) ↔ ∃ e, from_str ⟨cs⟩ = .error e) := by
  have hp : parse_header [bs] =
      match from_str ⟨cs⟩ with
      | .ok k => .ok k
      | .error _ => .error .Header := by
    simp [parse_header, from_one_raw_str, h]
  cases hfs : from_str ⟨cs⟩ with
  | ok k0 =>
    rw [hfs] at hp
    have hp2 : parse_header [bs] = .ok k0 := hp
    refine ⟨fun k => by rw [hp2]; simp, ?_⟩
    rw [hp2]
    simp
  | error e0 =>
    rw [hfs] at hp
    have hp2 : parse_header [bs] = .error .Header := hp
    refine ⟨fun k => by rw [hp2]; simp, ?_⟩
    rw [hp2]
    exact ⟨fun _ => ⟨e0, rfl⟩, fun _ => ⟨.Header, rfl⟩⟩

theorem C10_raw_and_text_paths_agree_witness :
    utf8Decode [81, 85, 70, 66, 81, 85, 70, 66, 81, 85, 70, 66, 81, 85, 70, 66,
        81, 85, 70, 66, 81, 81, 61, 61] =
      some "QUFBQUFBQUFBQUFBQUFBQQ==".data ∧
    ((∀ k, parse_header [[81, 85, 70, 66, 81, 85, 70, 66, 81, 85, 70, 66, 81, 85, 70, 66,
          81, 85, 70, 66, 81, 81, 61, 61]] = .ok k ↔
        from_str ⟨"QUFBQUFBQUFBQUFBQUFBQQ==".data⟩ = .ok k) ∧
      ((∃ e, parse_header [[81, 85, 70, 66, 81, 85, 70, 66, 81, 85, 70, 66, 81, 85, 70, 66,
          81, 85, 70, 66, 81, 81, 61, 61]] = .error e) ↔
        ∃ e, from_str ⟨"QUFBQUFBQUFBQUFBQUFBQQ==".data⟩ = .error e)) :=
  ⟨by decide, C10_raw_and_text_paths_agree _ _ (by decide)⟩

end RustWebSocket
